import Mathlib

/-!
Shallow embedding of the `diff` package of vasi-stripe/pb: a backward-
compatibility checker for protobuf descriptor trees.  The Go source lives in
`diff.go` (the diff engine) and `problem.go` (the `Change` vocabulary and its
renderings).  Descriptor fields the engine dereferences unconditionally
(`*field.Name`, `*field.Number`, ...) are modelled as total fields; fields the
engine only ever compares or tests for nil (`Type`, `TypeName`, `Label`,
`ClientStreaming`, `ServerStreaming`) are modelled as `Option`.  Go maps built
by looping over a slice (`m[k] = v`, later entries overwriting earlier ones)
are modelled by `lookupLast`; the top-level map of packages, which Go iterates
in unspecified order, is modelled as an association list in first-insertion
key order (`groupByPackage`).
-/

namespace PB

/-- The descriptor field-type enum (`FieldDescriptorProto_Type`), values 1-18.
Only compared for equality and rendered by the engine. -/
inductive FieldDescriptorProto_Type where
  | TYPE_DOUBLE
  | TYPE_FLOAT
  | TYPE_INT64
  | TYPE_UINT64
  | TYPE_INT32
  | TYPE_FIXED64
  | TYPE_FIXED32
  | TYPE_BOOL
  | TYPE_STRING
  | TYPE_GROUP
  | TYPE_MESSAGE
  | TYPE_BYTES
  | TYPE_UINT32
  | TYPE_ENUM
  | TYPE_SFIXED32
  | TYPE_SFIXED64
  | TYPE_SINT32
  | TYPE_SINT64
deriving DecidableEq, Repr

/-- The generated `String()` of the type enum. -/
def FieldDescriptorProto_Type.str : FieldDescriptorProto_Type → String
  | .TYPE_DOUBLE => "TYPE_DOUBLE"
  | .TYPE_FLOAT => "TYPE_FLOAT"
  | .TYPE_INT64 => "TYPE_INT64"
  | .TYPE_UINT64 => "TYPE_UINT64"
  | .TYPE_INT32 => "TYPE_INT32"
  | .TYPE_FIXED64 => "TYPE_FIXED64"
  | .TYPE_FIXED32 => "TYPE_FIXED32"
  | .TYPE_BOOL => "TYPE_BOOL"
  | .TYPE_STRING => "TYPE_STRING"
  | .TYPE_GROUP => "TYPE_GROUP"
  | .TYPE_MESSAGE => "TYPE_MESSAGE"
  | .TYPE_BYTES => "TYPE_BYTES"
  | .TYPE_UINT32 => "TYPE_UINT32"
  | .TYPE_ENUM => "TYPE_ENUM"
  | .TYPE_SFIXED32 => "TYPE_SFIXED32"
  | .TYPE_SFIXED64 => "TYPE_SFIXED64"
  | .TYPE_SINT32 => "TYPE_SINT32"
  | .TYPE_SINT64 => "TYPE_SINT64"

/-- The descriptor cardinality enum (`FieldDescriptorProto_Label`). -/
inductive FieldDescriptorProto_Label where
  | LABEL_OPTIONAL
  | LABEL_REQUIRED
  | LABEL_REPEATED
deriving DecidableEq, Repr

/-- The generated `String()` of the label enum. -/
def FieldDescriptorProto_Label.str : FieldDescriptorProto_Label → String
  | .LABEL_OPTIONAL => "LABEL_OPTIONAL"
  | .LABEL_REQUIRED => "LABEL_REQUIRED"
  | .LABEL_REPEATED => "LABEL_REPEATED"

/-- `descriptor.FieldDescriptorProto`, restricted to the fields the engine
reads.  `number` is an `int32`, modelled as `Int`. -/
structure FieldDescriptorProto where
  name : String
  number : Int
  type : Option FieldDescriptorProto_Type
  typeName : Option String
  label : Option FieldDescriptorProto_Label
deriving DecidableEq, Repr

/-- `descriptor.DescriptorProto.ReservedRange`: `Start` and `End` (`End` is a
Lean keyword, hence `end_`), both `int32`. -/
structure ReservedRange where
  start : Int
  end_ : Int
deriving DecidableEq, Repr

/-- `descriptor.DescriptorProto` (a message declaration). -/
structure DescriptorProto where
  name : String
  field : List FieldDescriptorProto
  reservedName : List String
  reservedRange : List ReservedRange
deriving DecidableEq, Repr

/-- `descriptor.EnumValueDescriptorProto`. -/
structure EnumValueDescriptorProto where
  name : String
  number : Int
deriving DecidableEq, Repr

/-- `descriptor.EnumDescriptorProto`. -/
structure EnumDescriptorProto where
  name : String
  value : List EnumValueDescriptorProto
deriving DecidableEq, Repr

/-- `descriptor.MethodDescriptorProto`.  The streaming flags are `*bool` that
the engine never dereferences, so they stay `Option Bool`. -/
structure MethodDescriptorProto where
  name : String
  inputType : String
  outputType : String
  clientStreaming : Option Bool
  serverStreaming : Option Bool
deriving DecidableEq, Repr

/-- `descriptor.ServiceDescriptorProto`. -/
structure ServiceDescriptorProto where
  name : String
  method : List MethodDescriptorProto
deriving DecidableEq, Repr

/-- `descriptor.FileDescriptorProto`, restricted to the fields the engine
reads: the package name and the top-level declarations. -/
structure FileDescriptorProto where
  package : String
  messageType : List DescriptorProto
  enumType : List EnumDescriptorProto
  service : List ServiceDescriptorProto
deriving DecidableEq, Repr

/-- The closed vocabulary of problems (`problem.go`): one constructor per
`Problem*` record type, carrying the same payload fields in declaration
order.  (`ProblemChangedFieldType.Number` is never set by the engine and is
omitted.) -/
inductive Change where
  | ProblemChangedFieldType (message field : String)
      (oldType newType : Option FieldDescriptorProto_Type)
  | ProblemChangedFieldName (message : String) (number : Int)
      (oldName newName : String)
  | ProblemChangedFieldLabel (message field : String)
      (oldLabel newLabel : Option FieldDescriptorProto_Label)
  | ProblemRemovedField (message field : String)
  | ProblemRemovedServiceMethod (service name : String)
  | ProblemChangedService (service name side oldType newType : String)
  | ProblemRemovedEnumValue (enum name : String)
  | ProblemChangeEnumValue (enum name : String) (oldValue newValue : Int)
  | ProblemChangeEnumName (enum : String) (number : Int) (oldName newName : String)
  | ProblemRemovedEnum (enum : String)
  | ProblemRemovedMessage (message : String)
  | ProblemRemovedPackage (package : String)
  | ProblemRemovedService (name : String)
  | ProblemChangedServiceStreaming (service name side : String)
      (oldStream newStream : Option Bool)
  | ProblemChangedFieldComplexType (message field oldType newType : String)
  | ProblemUnreservedFieldName (message name : String)
  | ProblemUnreservedFieldNumber (message : String) (start end_ : Int)
deriving DecidableEq, Repr

/-- `Report`: the ordered accumulator of changes. -/
structure Report where
  Changes : List Change
deriving DecidableEq, Repr

/-- Two-complement wrap of an unbounded integer into `int32`, for the two
places `problem.go` does `int32` arithmetic (`p.End - p.Start`, `p.End - 1`). -/
def wrap32 (x : Int) : Int :=
  (x + 2 ^ 31) % 2 ^ 32 - 2 ^ 31

/-- Go's `%s` of a `*FieldDescriptorProto_Type`: the enum name, or `<nil>`. -/
def typeStr : Option FieldDescriptorProto_Type → String
  | none => "<nil>"
  | some t => t.str

/-- Go's `%s` of a `*FieldDescriptorProto_Label`: the enum name, or `<nil>`. -/
def labelStr : Option FieldDescriptorProto_Label → String
  | none => "<nil>"
  | some l => l.str

/-- Go's `%t` of a boolean. -/
def boolStr (b : Bool) : String :=
  if b then "true" else "false"

/-- The `String()` method of each problem record, verbatim from `problem.go`.
Apostrophes are written `\x27`.  `ProblemChangedServiceStreaming` renders the
PRESENCE of each `*bool` (`p.OldStream != nil`), and
`ProblemUnreservedFieldNumber` picks plural or singular on `p.End - p.Start > 1`
(`int32` arithmetic, hence `wrap32`). -/
def renderChange : Change → String
  | .ProblemChangedFieldType m f o n =>
      "changed types for field \x27" ++ f ++ "\x27 on message \x27" ++ m ++
        "\x27: " ++ typeStr o ++ " -> " ++ typeStr n
  | .ProblemChangedFieldName m num o n =>
      "changed name for field #" ++ toString num ++ " on message \x27" ++ m ++
        "\x27: " ++ o ++ " -> " ++ n
  | .ProblemChangedFieldLabel m f o n =>
      "changed label for field \x27" ++ f ++ "\x27 on message \x27" ++ m ++
        "\x27: " ++ labelStr o ++ " -> " ++ labelStr n
  | .ProblemRemovedField m f =>
      "removed field \x27" ++ f ++ "\x27 from message \x27" ++ m ++ "\x27"
  | .ProblemRemovedServiceMethod s n =>
      "removed method \x27" ++ n ++ "\x27 from service \x27" ++ s ++ "\x27"
  | .ProblemChangedService s n side o nw =>
      "changed " ++ side ++ " type for method \x27" ++ n ++ "\x27 on service \x27" ++
        s ++ "\x27: " ++ o ++ " -> " ++ nw
  | .ProblemRemovedEnumValue e n =>
      "removed value \x27" ++ n ++ "\x27 from enum \x27" ++ e ++ "\x27"
  | .ProblemChangeEnumValue e n o nw =>
      "changed value \x27" ++ n ++ "\x27 on enum \x27" ++ e ++ "\x27: " ++
        toString o ++ " -> " ++ toString nw
  | .ProblemChangeEnumName e num o n =>
      "changed name of field #" ++ toString num ++ " on enum \x27" ++ e ++
        "\x27: " ++ o ++ " -> " ++ n
  | .ProblemRemovedEnum e => "removed enum \x27" ++ e ++ "\x27"
  | .ProblemRemovedMessage m => "removed message \x27" ++ m ++ "\x27"
  | .ProblemRemovedPackage p => "removed package \x27" ++ p ++ "\x27"
  | .ProblemRemovedService n => "removed service \x27" ++ n ++ "\x27"
  | .ProblemChangedServiceStreaming s n side o nw =>
      "changed " ++ side ++ " streaming for method \x27" ++ n ++
        "\x27 on service \x27" ++ s ++ "\x27: " ++ boolStr o.isSome ++ " -> " ++
        boolStr nw.isSome
  | .ProblemChangedFieldComplexType m f o n =>
      "changed types for field \x27" ++ f ++ "\x27 on message \x27" ++ m ++
        "\x27: " ++ o ++ " -> " ++ n
  | .ProblemUnreservedFieldName m n =>
      "un-reserved field name \x27" ++ n ++ "\x27 from message \x27" ++ m ++ "\x27"
  | .ProblemUnreservedFieldNumber m s e =>
      if wrap32 (e - s) > 1 then
        "un-reserved field number(s) in range " ++ toString s ++ " to " ++
          toString (wrap32 (e - 1)) ++ " from message \x27" ++ m ++ "\x27"
      else
        "un-reserved field number " ++ toString s ++ " from message \x27" ++ m ++ "\x27"

/-- A Go map built by `for _, x := range l { m[key(x)] = x }`: lookup returns
the LAST element of `l` with the given key. -/
def lookupLast {α : Type} {β : Type} [DecidableEq β]
    (key : α → β) (l : List α) (k : β) : Option α :=
  l.foldl (fun acc x => if key x = k then some x else acc) none

/-- `hasReserved`: the removed field's old name must be in the current
reserved-name list AND its old number must satisfy
`Start <= number && number <= End` for some current reserved range (note the
inclusive `<=` on `End`, verbatim from the source). -/
def hasReserved (message : DescriptorProto) (field : FieldDescriptorProto) : Bool :=
  (message.reservedName.any fun n => n = field.name) &&
    (message.reservedRange.any fun r => field.number ≥ r.start && field.number ≤ r.end_)

/-- The comparison block `diffFields` runs on a previous field and the
same-numbered current field: name, type kind (else reference type-name when
both are present), label. -/
def fieldChecks (current : DescriptorProto) (field next : FieldDescriptorProto) :
    List Change :=
  (if field.name ≠ next.name then
      [.ProblemChangedFieldName current.name field.number field.name next.name]
    else []) ++
  (if field.type ≠ next.type then
      [.ProblemChangedFieldType current.name field.name field.type next.type]
    else
      match field.typeName, next.typeName with
      | some pt, some nt =>
          if pt ≠ nt then
            [.ProblemChangedFieldComplexType current.name field.name pt nt]
          else []
      | _, _ => []) ++
  (if field.label ≠ next.label then
      [.ProblemChangedFieldLabel current.name field.name field.label next.label]
    else [])

/-- The body of `diffFields`'s loop for one previous field, given the
current-fields-by-number index. -/
def fieldDiff (current : DescriptorProto) (curr : Int → Option FieldDescriptorProto)
    (field : FieldDescriptorProto) : List Change :=
  match curr field.number with
  | none =>
      if hasReserved current field then []
      else [.ProblemRemovedField current.name field.name]
  | some next => fieldChecks current field next

/-- `diffFields`: index current fields by number, then check each previous
field. -/
def diffFields (previous current : DescriptorProto) : List Change :=
  previous.field.flatMap
    (fieldDiff current (lookupLast (fun f => f.number) current.field))

/-- The body of `diffReservedNames`'s loop for one previous reserved name. -/
def reservedNameCheck (current : DescriptorProto) (prevName : String) : List Change :=
  if current.reservedName.any fun c => c = prevName then []
  else [.ProblemUnreservedFieldName current.name prevName]

/-- `diffReservedNames`. -/
def diffReservedNames (previous current : DescriptorProto) : List Change :=
  previous.reservedName.flatMap (reservedNameCheck current)

/-- The body of `diffReservedNumbers`'s loop for one previous reserved range:
flagged unless some single current range contains it
(`prev.Start >= curr.Start && prev.End <= curr.End`). -/
def reservedRangeCheck (current : DescriptorProto) (prevRange : ReservedRange) :
    List Change :=
  if current.reservedRange.any fun c =>
      prevRange.start ≥ c.start && prevRange.end_ ≤ c.end_ then []
  else [.ProblemUnreservedFieldNumber current.name prevRange.start prevRange.end_]

/-- `diffReservedNumbers`. -/
def diffReservedNumbers (previous current : DescriptorProto) : List Change :=
  previous.reservedRange.flatMap (reservedRangeCheck current)

/-- `diffMsg`: fields, then reserved names, then reserved ranges. -/
def diffMsg (previous current : DescriptorProto) : List Change :=
  diffFields previous current ++ diffReservedNames previous current ++
    diffReservedNumbers previous current

/-- Pass one of `diffEnum` for one previous value: number absent from the
current by-number index means renumbered (same name found) or removed. -/
def enumValueCheck (prevName : String)
    (byvalue : Int → Option EnumValueDescriptorProto)
    (byname : String → Option EnumValueDescriptorProto)
    (v : EnumValueDescriptorProto) : List Change :=
  match byvalue v.number with
  | some _ => []
  | none =>
      match byname v.name with
      | some next => [.ProblemChangeEnumValue prevName v.name v.number next.number]
      | none => [.ProblemRemovedEnumValue prevName v.name]

/-- Pass two of `diffEnum` for one previous value: name absent from the
current by-name index and number still present means renamed. -/
def enumNameCheck (prevName : String)
    (byvalue : Int → Option EnumValueDescriptorProto)
    (byname : String → Option EnumValueDescriptorProto)
    (v : EnumValueDescriptorProto) : List Change :=
  match byname v.name with
  | some _ => []
  | none =>
      match byvalue v.number with
      | some next => [.ProblemChangeEnumName prevName v.number v.name next.name]
      | none => []

/-- `diffEnum`: both passes run over all previous values (pass one entirely,
then pass two), against the current-by-number and current-by-name indices. -/
def diffEnum (previous current : EnumDescriptorProto) : List Change :=
  previous.value.flatMap
      (enumValueCheck previous.name
        (lookupLast (fun v => v.number) current.value)
        (lookupLast (fun v => v.name) current.value)) ++
    previous.value.flatMap
      (enumNameCheck previous.name
        (lookupLast (fun v => v.number) current.value)
        (lookupLast (fun v => v.name) current.value))

/-- The comparison block `diffService` runs on a previous method and the
same-named current method: input type, output type, client streaming, server
streaming (the `*bool` flags compared as optional values, like `cmp.Equal`). -/
def methodChecks (currentName : String) (prev next : MethodDescriptorProto) :
    List Change :=
  (if next.inputType ≠ prev.inputType then
      [.ProblemChangedService currentName prev.name "input" prev.inputType
        next.inputType]
    else []) ++
  (if next.outputType ≠ prev.outputType then
      [.ProblemChangedService currentName prev.name "output" prev.outputType
        next.outputType]
    else []) ++
  (if prev.clientStreaming ≠ next.clientStreaming then
      [.ProblemChangedServiceStreaming currentName prev.name "client"
        prev.clientStreaming next.clientStreaming]
    else []) ++
  (if prev.serverStreaming ≠ next.serverStreaming then
      [.ProblemChangedServiceStreaming currentName prev.name "server"
        prev.serverStreaming next.serverStreaming]
    else [])

/-- The body of `diffService`'s loop for one previous method. -/
def methodDiff (currentName prevServiceName : String)
    (curr : String → Option MethodDescriptorProto)
    (prev : MethodDescriptorProto) : List Change :=
  match curr prev.name with
  | none => [.ProblemRemovedServiceMethod prevServiceName prev.name]
  | some next => methodChecks currentName prev next

/-- `diffService`: index current methods by name, then check each previous
method. -/
def diffService (previous current : ServiceDescriptorProto) : List Change :=
  previous.method.flatMap
    (methodDiff current.name previous.name
      (lookupLast (fun m => m.name) current.method))

/-- All enums of a package's files, flattened in file order (the nested loops
of `diffPackage`). -/
def enumsOf (files : List FileDescriptorProto) : List EnumDescriptorProto :=
  files.flatMap fun f => f.enumType

/-- All services of a package's files, flattened in file order. -/
def servicesOf (files : List FileDescriptorProto) : List ServiceDescriptorProto :=
  files.flatMap fun f => f.service

/-- All messages of a package's files, flattened in file order. -/
def messagesOf (files : List FileDescriptorProto) : List DescriptorProto :=
  files.flatMap fun f => f.messageType

/-- `diffPackage`: the enum block, then the service block, then the message
block.  Each block indexes the current declarations of its kind by name
(last file wins) and walks the previous declarations in file order. -/
def diffPackage (previous current : List FileDescriptorProto) : List Change :=
  ((enumsOf previous).flatMap fun e =>
      match lookupLast (fun x => x.name) (enumsOf current) e.name with
      | none => [.ProblemRemovedEnum e.name]
      | some next => diffEnum e next) ++
    ((servicesOf previous).flatMap fun s =>
      match lookupLast (fun x => x.name) (servicesOf current) s.name with
      | none => [.ProblemRemovedService s.name]
      | some next => diffService s next) ++
    ((messagesOf previous).flatMap fun m =>
      match lookupLast (fun x => x.name) (messagesOf current) m.name with
      | none => [.ProblemRemovedMessage m.name]
      | some next => diffMsg m next)

/-- One step of `groupByPackage`'s loop: append the file to its package's
bucket, or open a new bucket at the end. -/
def insertFile (acc : List (String × List FileDescriptorProto))
    (file : FileDescriptorProto) : List (String × List FileDescriptorProto) :=
  match acc with
  | [] => [(file.package, [file])]
  | (k, fs) :: rest =>
      if k = file.package then (k, fs ++ [file]) :: rest
      else (k, fs) :: insertFile rest file

/-- `groupByPackage`: the Go map from package name to that package's files,
modelled as an association list in first-insertion key order (buckets keep
file order). -/
def groupByPackage (files : List FileDescriptorProto) :
    List (String × List FileDescriptorProto) :=
  files.foldl insertFile []

/-- The change list `diffFiles` accumulates: for each previous package, a
removed-package problem or the package diff. -/
def diffFilesChanges (previous current : List FileDescriptorProto) : List Change :=
  (groupByPackage previous).flatMap fun pf =>
    match lookupLast (fun q => q.1) (groupByPackage current) pf.1 with
    | none => [.ProblemRemovedPackage pf.1]
    | some next => diffPackage pf.2 next.2

/-- Go's `%s` of the `[]Change` slice: bracketed, space-separated renderings. -/
def renderChangeList (changes : List Change) : String :=
  "[" ++ String.intercalate " " (changes.map renderChange) ++ "]"

/-- The `fmt.Errorf` message of `diffFiles`. -/
def errorMessage (changes : List Change) : String :=
  "found " ++ toString changes.length ++ " problems: " ++ renderChangeList changes

/-- `diffFiles`: the report plus the derived error (`nil` modelled as `none`,
a non-nil error as `some` of its message). -/
def diffFiles (previous current : List FileDescriptorProto) :
    Report × Option String :=
  let changes := diffFilesChanges previous current
  (⟨changes⟩, if changes.length > 0 then some (errorMessage changes) else none)

/-! Proof-layer definitions: key order of the grouped map, predicates the
invariance and monotonicity theorems hypothesise, and the concrete snapshots
the counterexamples and witnesses evaluate the engine on. -/

/-- The distinct elements of a list in first-occurrence order: the key order
of the association list `groupByPackage` builds. -/
def firstKeys {β : Type} [DecidableEq β] : List β → List β
  | [] => []
  | x :: xs => x :: (firstKeys xs).filter (fun a => a ≠ x)

/-- `o` is `some a` for an `a` satisfying `P`. -/
def OptionHolds {α : Type} (o : Option α) (P : α → Prop) : Prop :=
  ∃ a, o = some a ∧ P a

instance {α : Type} (o : Option α) (P : α → Prop) [∀ a, Decidable (P a)] :
    Decidable (OptionHolds o P) :=
  match o with
  | none => isFalse (by rintro ⟨a, h, _⟩; cases h)
  | some a =>
      decidable_of_iff (P a)
        ⟨fun h => ⟨a, rfl, h⟩, by rintro ⟨b, hb, h⟩; cases hb; exact h⟩

/-- Every previous enum value reappears in the current enum with the same
name and the same number (new values may be added). -/
def ExtendsEnum (p c : EnumDescriptorProto) : Prop :=
  ∀ v ∈ p.value, ∃ w ∈ c.value, w.name = v.name ∧ w.number = v.number

/-- The current service's by-name view maps every previous method name to a
method identical on all compared attributes (new methods may be added). -/
def ExtendsService (p c : ServiceDescriptorProto) : Prop :=
  ∀ m ∈ p.method,
    OptionHolds (lookupLast (fun x => x.name) c.method m.name) fun m' =>
      m'.inputType = m.inputType ∧ m'.outputType = m.outputType ∧
      m'.clientStreaming = m.clientStreaming ∧
      m'.serverStreaming = m.serverStreaming

/-- The current message's by-number view maps every previous field number to
a field identical on all compared attributes, and every previous reserved
name and reserved range is still declared (new fields and new reservations
may be added). -/
def ExtendsMessage (p c : DescriptorProto) : Prop :=
  (∀ f ∈ p.field,
    OptionHolds (lookupLast (fun x => x.number) c.field f.number) fun f' =>
      f'.name = f.name ∧ f'.type = f.type ∧ f'.typeName = f.typeName ∧
      f'.label = f.label) ∧
  (∀ n ∈ p.reservedName, n ∈ c.reservedName) ∧
  (∀ r ∈ p.reservedRange, r ∈ c.reservedRange)

/-- The current package's derived by-name views extend every previous
top-level declaration (new declarations may be added). -/
def ExtendsFiles (p c : List FileDescriptorProto) : Prop :=
  (∀ e ∈ enumsOf p,
    OptionHolds (lookupLast (fun x => x.name) (enumsOf c) e.name) fun e' =>
      ExtendsEnum e e') ∧
  (∀ s ∈ servicesOf p,
    OptionHolds (lookupLast (fun x => x.name) (servicesOf c) s.name) fun s' =>
      ExtendsService s s') ∧
  (∀ m ∈ messagesOf p,
    OptionHolds (lookupLast (fun x => x.name) (messagesOf c) m.name) fun m' =>
      ExtendsMessage m m')

/-- The current snapshot extends the previous one only additively: every
previous package still exists and its derived view extends the previous
package's declarations; packages, messages, enums, services, fields, enum
values and methods may be added, shared declarations are identical. -/
def AdditiveExtension (previous current : List FileDescriptorProto) : Prop :=
  ∀ pb ∈ groupByPackage previous,
    OptionHolds (lookupLast (fun q => q.1) (groupByPackage current) pb.1)
      fun cb => ExtendsFiles pb.2 cb.2

/-- The uniqueness invariant the spec assumes of one package's files: no
duplicate top-level names per kind, no duplicate field numbers within a
message, no duplicate method names within a service. -/
def WellFormedPackage (files : List FileDescriptorProto) : Prop :=
  ((enumsOf files).map (fun e => e.name)).Nodup ∧
  ((servicesOf files).map (fun s => s.name)).Nodup ∧
  ((messagesOf files).map (fun m => m.name)).Nodup ∧
  (∀ m ∈ messagesOf files, (m.field.map (fun f => f.number)).Nodup) ∧
  (∀ s ∈ servicesOf files, (s.method.map (fun m => m.name)).Nodup)

/-- Every package of the snapshot satisfies `WellFormedPackage`. -/
def WellFormed (files : List FileDescriptorProto) : Prop :=
  ∀ pb ∈ groupByPackage files, WellFormedPackage pb.2

/-- Every package of the (current) snapshot has duplicate-free top-level
names per kind, so its last-wins by-name views are order-independent. -/
def UniquePackageNames (files : List FileDescriptorProto) : Prop :=
  ∀ pb ∈ groupByPackage files,
    ((enumsOf pb.2).map (fun e => e.name)).Nodup ∧
    ((servicesOf pb.2).map (fun s => s.name)).Nodup ∧
    ((messagesOf pb.2).map (fun m => m.name)).Nodup


instance (p c : EnumDescriptorProto) : Decidable (ExtendsEnum p c) := by
  unfold ExtendsEnum; infer_instance

instance (p c : ServiceDescriptorProto) : Decidable (ExtendsService p c) := by
  unfold ExtendsService; infer_instance

instance (p c : DescriptorProto) : Decidable (ExtendsMessage p c) := by
  unfold ExtendsMessage; infer_instance

instance (p c : List FileDescriptorProto) : Decidable (ExtendsFiles p c) := by
  unfold ExtendsFiles; infer_instance

instance (previous current : List FileDescriptorProto) :
    Decidable (AdditiveExtension previous current) := by
  unfold AdditiveExtension; infer_instance

instance (files : List FileDescriptorProto) :
    Decidable (WellFormedPackage files) := by
  unfold WellFormedPackage; infer_instance

instance (files : List FileDescriptorProto) : Decidable (WellFormed files) := by
  unfold WellFormed; infer_instance

instance (files : List FileDescriptorProto) :
    Decidable (UniquePackageNames files) := by
  unfold UniquePackageNames; infer_instance

/-- Recognises a `ProblemChangedFieldType` change. -/
def isChangedFieldType : Change → Bool
  | .ProblemChangedFieldType _ _ _ _ => true
  | _ => false

/-- Recognises a `ProblemChangedFieldComplexType` change. -/
def isChangedFieldComplexType : Change → Bool
  | .ProblemChangedFieldComplexType _ _ _ _ => true
  | _ => false

namespace Ex

/-- A previous message: one field `f` with number 5. -/
def c1PrevMsg : DescriptorProto :=
  ⟨"M", [⟨"f", 5, some .TYPE_STRING, none, some .LABEL_OPTIONAL⟩], [], []⟩

/-- The current message: field `f` removed; its name is reserved and the
reserved range is `{Start: 3, End: 5}` — under protobuf's half-open ranges
this reserves numbers 3 and 4 only, not 5. -/
def c1CurrMsg : DescriptorProto := ⟨"M", [], ["f"], [⟨3, 5⟩]⟩

/-- The previous snapshot for the C1 evaluation. -/
def c1Prev : List FileDescriptorProto := [⟨"p", [c1PrevMsg], [], []⟩]

/-- The current snapshot for the C1 evaluation. -/
def c1Curr : List FileDescriptorProto := [⟨"p", [c1CurrMsg], [], []⟩]

/-- A previous message reserving the single range `[1, 5)`. -/
def c2PrevMsg : DescriptorProto := ⟨"M", [], [], [⟨1, 5⟩]⟩

/-- The current message covering `[1, 5)` only as the two adjacent ranges
`[1, 3)` and `[3, 5)`. -/
def c2CurrMsg : DescriptorProto := ⟨"M", [], [], [⟨1, 3⟩, ⟨3, 5⟩]⟩

/-- A one-value previous enum for the C3 witness. -/
def c3Prev : EnumDescriptorProto := ⟨"E", [⟨"A", 1⟩]⟩

/-- C3: the value renumbered. -/
def c3Renumbered : EnumDescriptorProto := ⟨"E", [⟨"A", 2⟩]⟩

/-- C3: the value renamed. -/
def c3Renamed : EnumDescriptorProto := ⟨"E", [⟨"B", 1⟩]⟩

/-- C3: the value changed in both name and number. -/
def c3Both : EnumDescriptorProto := ⟨"E", [⟨"B", 2⟩]⟩

/-- A previous service whose method has both streaming flags present
(client `false`, server `true`). -/
def c4Prev : ServiceDescriptorProto :=
  ⟨"Foo", [⟨"Invoke", ".a.A", ".a.B", some false, some true⟩]⟩

/-- The current service: client streaming still present but now `true`. -/
def c4Curr : ServiceDescriptorProto :=
  ⟨"Foo", [⟨"Invoke", ".a.A", ".a.B", some true, some true⟩]⟩

/-- A previous field differing from `c5Next` in name, type kind, type-name
reference and label at once. -/
def c5Field : FieldDescriptorProto :=
  ⟨"a", 1, some .TYPE_MESSAGE, some ".x.A", some .LABEL_OPTIONAL⟩

/-- The current field matched by number 1. -/
def c5Next : FieldDescriptorProto :=
  ⟨"b", 1, some .TYPE_ENUM, some ".x.B", some .LABEL_REPEATED⟩

/-- The current message holding `c5Next`. -/
def c5Msg : DescriptorProto := ⟨"M", [c5Next], [], []⟩

/-- A field differing from `c5RefNext` in name, reference and label but not
in type kind. -/
def c5RefField : FieldDescriptorProto :=
  ⟨"a", 1, some .TYPE_MESSAGE, some ".x.A", some .LABEL_OPTIONAL⟩

/-- The current field for the reference-change run. -/
def c5RefNext : FieldDescriptorProto :=
  ⟨"b", 1, some .TYPE_MESSAGE, some ".x.B", some .LABEL_REPEATED⟩

/-- The current message holding `c5RefNext`. -/
def c5RefMsg : DescriptorProto := ⟨"M", [c5RefNext], [], []⟩

/-- A file declaring message `M` with field `a` of type string, package `p`. -/
def dupA : FileDescriptorProto :=
  ⟨"p", [⟨"M", [⟨"a", 1, some .TYPE_STRING, none, some .LABEL_OPTIONAL⟩], [], []⟩],
    [], []⟩

/-- A second file in package `p` declaring ANOTHER message `M`, whose field
`a` has type bool: the derived view silently shadows one with the other. -/
def dupB : FileDescriptorProto :=
  ⟨"p", [⟨"M", [⟨"a", 1, some .TYPE_BOOL, none, some .LABEL_OPTIONAL⟩], [], []⟩],
    [], []⟩

/-- A well-formed one-file snapshot with a message, an enum and a service. -/
def rich : List FileDescriptorProto :=
  [⟨"pkg",
    [⟨"HelloRequest", [⟨"name", 1, some .TYPE_STRING, none, some .LABEL_OPTIONAL⟩],
      ["old"], [⟨2, 4⟩]⟩],
    [⟨"FOO", [⟨"bar", 0⟩, ⟨"bat", 1⟩]⟩],
    [⟨"Foo", [⟨"Invoke", ".pkg.A", ".pkg.B", none, some true⟩]⟩]⟩]

/-- `rich` extended additively: a field, an enum value, a method, a message
and a whole package are added; everything shared is unchanged. -/
def richMore : List FileDescriptorProto :=
  [⟨"pkg",
    [⟨"HelloRequest",
      [⟨"name", 1, some .TYPE_STRING, none, some .LABEL_OPTIONAL⟩,
       ⟨"extra", 2, some .TYPE_BOOL, none, some .LABEL_OPTIONAL⟩],
      ["old"], [⟨2, 4⟩]⟩,
     ⟨"NewMessage", [], [], []⟩],
    [⟨"FOO", [⟨"bar", 0⟩, ⟨"bat", 1⟩, ⟨"baz", 2⟩]⟩],
    [⟨"Foo", [⟨"Invoke", ".pkg.A", ".pkg.B", none, some true⟩,
              ⟨"New", ".pkg.C", ".pkg.D", some true, none⟩]⟩]⟩,
   ⟨"newpkg", [], [⟨"OTHER", [⟨"x", 0⟩]⟩], []⟩]

/-- An empty file of package `a`. -/
def pkgA : FileDescriptorProto := ⟨"a", [], [], []⟩

/-- An empty file of package `b`. -/
def pkgB : FileDescriptorProto := ⟨"b", [], [], []⟩

end Ex


/-! General lemmas: the behaviour of `lookupLast` (the Go map view), the
characterisation of `groupByPackage`, and conditions under which the
comparison blocks report nothing. -/

section Lemmas

variable {α : Type} {β : Type} [DecidableEq β] {key : α → β} {k : β}

/-- Folding the map-build step from any accumulator: the last match wins,
the accumulator only surfaces when no element matches. -/
theorem lookupLast_foldl (l : List α) (a : Option α) :
    l.foldl (fun acc x => if key x = k then some x else acc) a =
      (lookupLast key l k).elim a some := by
  induction l generalizing a with
  | nil => simp [lookupLast]
  | cons x xs ih =>
    show List.foldl _ (if key x = k then some x else a) xs = _
    rw [ih]
    show _ = Option.elim (List.foldl _ (if key x = k then some x else none) xs) a some
    rw [ih (if key x = k then some x else none)]
    cases h : lookupLast key xs k with
    | some y => simp
    | none => by_cases hx : key x = k <;> simp [hx]

/-- Unfolding `lookupLast` over a cons cell. -/
theorem lookupLast_cons (x : α) (l : List α) :
    lookupLast key (x :: l) k =
      (lookupLast key l k).elim (if key x = k then some x else none) some := by
  show List.foldl _ (if key x = k then some x else none) l = _
  rw [lookupLast_foldl]

/-- The lookup misses exactly when no element carries the key. -/
theorem lookupLast_eq_none_iff {l : List α} :
    lookupLast key l k = none ↔ ∀ x ∈ l, key x ≠ k := by
  induction l with
  | nil => simp [lookupLast]
  | cons x xs ih =>
    rw [lookupLast_cons]
    cases h : lookupLast key xs k with
    | some y =>
      have hy : ¬ (∀ x ∈ xs, key x ≠ k) := by
        intro hall
        rw [ih.2 hall] at h
        cases h
      simp only [Option.elim]
      constructor
      · intro hc; cases hc
      · intro hall
        exact absurd (fun z hz => hall z (List.mem_cons_of_mem _ hz)) hy
    | none =>
      have hall := ih.1 h
      by_cases hx : key x = k <;>
        simp only [Option.elim, if_pos, if_neg, hx, ite_true, ite_false]
      · constructor
        · intro hc; cases hc
        · intro hall2
          exact absurd hx (hall2 x (List.mem_cons_self _ _))
      · constructor
        · intro _ z hz
          rcases List.mem_cons.1 hz with rfl | hz'
          · exact hx
          · exact hall z hz'
        · intro _; trivial

/-- A successful lookup returns an element of the list carrying the key. -/
theorem lookupLast_eq_some {l : List α} {y : α}
    (h : lookupLast key l k = some y) : y ∈ l ∧ key y = k := by
  induction l generalizing y with
  | nil => simp [lookupLast] at h
  | cons x xs ih =>
    rw [lookupLast_cons] at h
    cases hx : lookupLast key xs k with
    | some z =>
      rw [hx] at h
      simp only [Option.elim] at h
      cases h
      obtain ⟨hz, hk⟩ := ih hx
      exact ⟨List.mem_cons_of_mem _ hz, hk⟩
    | none =>
      rw [hx] at h
      simp only [Option.elim] at h
      by_cases hkx : key x = k
      · rw [if_pos hkx] at h; cases h; exact ⟨List.mem_cons_self _ _, hkx⟩
      · rw [if_neg hkx] at h; cases h

/-- The lookup succeeds exactly when some element carries the key. -/
theorem lookupLast_isSome_iff {l : List α} :
    (lookupLast key l k).isSome = true ↔ ∃ x ∈ l, key x = k := by
  cases h : lookupLast key l k with
  | some y =>
    obtain ⟨hm, hk⟩ := lookupLast_eq_some h
    simp only [Option.isSome_some, true_iff]
    exact ⟨y, hm, hk⟩
  | none =>
    have hnone := lookupLast_eq_none_iff.1 h
    rw [iff_false_intro (?_ : ¬ ∃ x ∈ l, key x = k)]
    · simp
    rintro ⟨x, hx, hk⟩
    exact absurd hk (hnone x hx)

/-- With duplicate-free keys the lookup of an element's key is the element. -/
theorem lookupLast_self_of_nodup {l : List α} {x : α}
    (hd : (l.map key).Nodup) (hx : x ∈ l) : lookupLast key l (key x) = some x := by
  cases h : lookupLast key l (key x) with
  | some y =>
    obtain ⟨hm, hk⟩ := lookupLast_eq_some h
    have := List.inj_on_of_nodup_map hd hm hx hk
    rw [this]
  | none =>
    exact absurd rfl (lookupLast_eq_none_iff.1 h x hx)

/-- With duplicate-free keys the lookup result is characterised by
membership. -/
theorem lookupLast_eq_some_iff_of_nodup {l : List α} {y : α}
    (hd : (l.map key).Nodup) :
    lookupLast key l k = some y ↔ y ∈ l ∧ key y = k := by
  constructor
  · exact lookupLast_eq_some
  · rintro ⟨hm, rfl⟩
    exact lookupLast_self_of_nodup hd hm

/-- With duplicate-free keys the lookup is invariant under permutation. -/
theorem lookupLast_perm_of_nodup {l₁ l₂ : List α}
    (hp : l₁.Perm l₂) (hd : (l₂.map key).Nodup) :
    lookupLast key l₁ k = lookupLast key l₂ k := by
  have hd₁ : (l₁.map key).Nodup := ((hp.map key).nodup_iff).2 hd
  cases h : lookupLast key l₂ k with
  | some y =>
    obtain ⟨hm, hk⟩ := lookupLast_eq_some h
    exact (lookupLast_eq_some_iff_of_nodup hd₁).2 ⟨hp.mem_iff.2 hm, hk⟩
  | none =>
    have hnone := lookupLast_eq_none_iff.1 h
    exact lookupLast_eq_none_iff.2 fun x hx => hnone x (hp.mem_iff.1 hx)

/-- `firstKeys` keeps exactly the elements of the list. -/
theorem mem_firstKeys {a : β} {l : List β} : a ∈ firstKeys l ↔ a ∈ l := by
  induction l with
  | nil => simp [firstKeys]
  | cons x xs ih =>
    by_cases h : a = x <;> simp [firstKeys, List.mem_filter, h, ih]

/-- `firstKeys` is duplicate-free. -/
theorem firstKeys_nodup (l : List β) : (firstKeys l).Nodup := by
  induction l with
  | nil => simp [firstKeys]
  | cons x xs ih =>
    refine List.Nodup.cons ?_ (List.Nodup.filter _ ih)
    intro hmem
    have := (List.mem_filter.1 hmem).2
    simp at this

/-- Appending one element extends the key order only when the key is new. -/
theorem firstKeys_append_singleton (l : List β) (k : β) :
    firstKeys (l ++ [k]) = if k ∈ l then firstKeys l else firstKeys l ++ [k] := by
  induction l with
  | nil => simp [firstKeys]
  | cons x xs ih =>
    show x :: (firstKeys (xs ++ [k])).filter (fun a => a ≠ x) = _
    rw [ih]
    by_cases hm : k ∈ xs
    · simp [List.mem_cons, hm, firstKeys]
    · by_cases hx : k = x
      · subst hx
        simp [List.mem_cons, hm, firstKeys, List.filter_append]
      · simp only [List.mem_cons, hm, or_false, hx, if_neg, ite_false, firstKeys]
        rw [List.filter_append]
        simp [hx]

/-- `insertFile` on an association list presented as keyed buckets: either
append to the existing bucket or open a new one at the end. -/
theorem insertFile_mapKeys (keys : List String)
    (F : String → List FileDescriptorProto) (f : FileDescriptorProto)
    (hd : keys.Nodup) :
    insertFile (keys.map fun p => (p, F p)) f =
      if f.package ∈ keys then
        keys.map fun p => (p, if p = f.package then F p ++ [f] else F p)
      else (keys.map fun p => (p, F p)) ++ [(f.package, [f])] := by
  induction keys with
  | nil => simp [insertFile]
  | cons q keys ih =>
    obtain ⟨hq, hd'⟩ := List.nodup_cons.1 hd
    show insertFile ((q, F q) :: keys.map fun p => (p, F p)) f = _
    by_cases hqf : q = f.package
    · have hnotin : f.package ∉ keys := hqf ▸ hq
      simp only [insertFile, if_pos hqf, List.mem_cons, hqf, true_or, if_true]
      simp only [List.map_cons, if_pos hqf]
      congr 1
      apply List.map_congr_left
      intro p hp
      have : p ≠ f.package := fun h => hnotin (h ▸ hp)
      simp [this]
    · simp only [insertFile, if_neg hqf, List.mem_cons]
      have hne : ¬ f.package = q := fun h => hqf h.symm
      rw [ih hd']
      by_cases hm : f.package ∈ keys
      · simp only [hm, or_true, hne, false_or, if_true]
        simp [hqf]
      · simp [hne, hm, hqf]

/-- The `foldl` invariant behind `groupByPackage`'s characterisation. -/
theorem groupByPackage_go (fs gs : List FileDescriptorProto) :
    List.foldl insertFile
        ((firstKeys (gs.map fun f => f.package)).map fun p =>
          (p, gs.filter fun g => g.package = p)) fs =
      (firstKeys ((gs ++ fs).map fun f => f.package)).map fun p =>
        (p, (gs ++ fs).filter fun g => g.package = p) := by
  induction fs generalizing gs with
  | nil => simp
  | cons f fs ih =>
    have step : insertFile
        ((firstKeys (gs.map fun f => f.package)).map fun p =>
          (p, gs.filter fun g => g.package = p)) f =
        (firstKeys ((gs ++ [f]).map fun f => f.package)).map fun p =>
          (p, (gs ++ [f]).filter fun g => g.package = p) := by
      rw [insertFile_mapKeys _ _ _ (firstKeys_nodup _)]
      rw [List.map_append]
      simp only [List.map_cons, List.map_nil]
      rw [firstKeys_append_singleton]
      by_cases hm : f.package ∈ gs.map fun g => g.package
      · rw [if_pos (mem_firstKeys.2 hm), if_pos hm]
        apply List.map_congr_left
        intro p hp
        rw [List.filter_append]
        by_cases hpf : p = f.package
        · subst hpf
          simp
        · have : ¬ f.package = p := fun h => hpf h.symm
          simp [this, hpf]
      · rw [if_neg (fun h => hm (mem_firstKeys.1 h)), if_neg hm]
        rw [List.map_append]
        simp only [List.map_cons, List.map_nil]
        congr 1
        · apply List.map_congr_left
          intro p hp
          rw [List.filter_append]
          have hpm : p ∈ gs.map fun g => g.package := mem_firstKeys.1 hp
          have : ¬ f.package = p := fun h => hm (h ▸ hpm)
          simp [this]
        · simp only [List.cons.injEq, Prod.mk.injEq, true_and, and_true]
          rw [List.filter_append]
          have : gs.filter (fun g => g.package = f.package) = [] := by
            rw [List.filter_eq_nil_iff]
            intro g hg hgf
            exact hm (List.mem_map.2 ⟨g, hg, by simpa using hgf⟩)
          simp [this]
    rw [List.foldl_cons, step, ih (gs ++ [f])]
    simp

/-- `groupByPackage` is the package names in first-occurrence order, each
paired with the files of that package in snapshot order. -/
theorem groupByPackage_eq (files : List FileDescriptorProto) :
    groupByPackage files =
      (firstKeys (files.map fun f => f.package)).map fun p =>
        (p, files.filter fun g => g.package = p) := by
  have := groupByPackage_go files []
  simpa [groupByPackage, firstKeys] using this

/-- Looking a key up in an association list of distinct keyed buckets. -/
theorem lookupLast_fst_map {γ : Type} (keys : List String) (F : String → γ)
    (hd : keys.Nodup) (k : String) :
    lookupLast (fun q => q.1) (keys.map fun p => (p, F p)) k =
      if k ∈ keys then some (k, F k) else none := by
  induction keys with
  | nil => simp [lookupLast]
  | cons q keys ih =>
    obtain ⟨hq, hd'⟩ := List.nodup_cons.1 hd
    rw [List.map_cons, lookupLast_cons, ih hd']
    by_cases hm : k ∈ keys
    · have : ¬ k = q := fun h => hq (h ▸ hm)
      simp [hm, this, List.mem_cons]
    · by_cases hqk : q = k
      · subst hqk
        simp [hm]
      · have : ¬ k = q := fun h => hqk h.symm
        simp [hm, hqk, this, List.mem_cons]

/-- The package lookup `diffFiles` performs, characterised. -/
theorem lookup_groupByPackage (files : List FileDescriptorProto) (p : String) :
    lookupLast (fun q => q.1) (groupByPackage files) p =
      if p ∈ files.map (fun f => f.package) then
        some (p, files.filter fun g => g.package = p)
      else none := by
  rw [groupByPackage_eq, lookupLast_fst_map _ _ (firstKeys_nodup _)]
  by_cases hm : p ∈ files.map fun f => f.package
  · rw [if_pos (mem_firstKeys.2 hm), if_pos hm]
  · rw [if_neg (fun h => hm (mem_firstKeys.1 h)), if_neg hm]

/-- A matched field on which all four compared attributes agree yields no
change. -/
theorem fieldChecks_eq_nil {c : DescriptorProto} {f next : FieldDescriptorProto}
    (h1 : next.name = f.name) (h2 : next.type = f.type)
    (h3 : next.typeName = f.typeName) (h4 : next.label = f.label) :
    fieldChecks c f next = [] := by
  unfold fieldChecks
  rw [h1, h2, h3, h4]
  simp only [ne_eq, not_true_eq_false, if_false, List.nil_append, ite_self]
  cases f.typeName <;> simp

/-- A matched method on which all four compared attributes agree yields no
change. -/
theorem methodChecks_eq_nil {n : String} {m next : MethodDescriptorProto}
    (h1 : next.inputType = m.inputType) (h2 : next.outputType = m.outputType)
    (h3 : next.clientStreaming = m.clientStreaming)
    (h4 : next.serverStreaming = m.serverStreaming) :
    methodChecks n m next = [] := by
  unfold methodChecks
  rw [h1, h2, h3, h4]
  simp

/-- Reserved names all still reserved: no regression reported. -/
theorem diffReservedNames_eq_nil {p c : DescriptorProto}
    (h : ∀ n ∈ p.reservedName, n ∈ c.reservedName) :
    diffReservedNames p c = [] := by
  rw [diffReservedNames, List.flatMap_eq_nil_iff]
  intro n hn
  rw [reservedNameCheck, if_pos]
  exact List.any_eq_true.2 ⟨n, h n hn, by simp⟩

/-- Reserved ranges all contained in a single current range: no regression
reported. -/
theorem diffReservedNumbers_eq_nil {p c : DescriptorProto}
    (h : ∀ r ∈ p.reservedRange, ∃ cr ∈ c.reservedRange,
      r.start ≥ cr.start ∧ r.end_ ≤ cr.end_) :
    diffReservedNumbers p c = [] := by
  rw [diffReservedNumbers, List.flatMap_eq_nil_iff]
  intro r hr
  obtain ⟨cr, hcr, hs, he⟩ := h r hr
  rw [reservedRangeCheck, if_pos]
  exact List.any_eq_true.2 ⟨cr, hcr, by simp [hs, he]⟩

/-- Every previous field matched, by number, to an identical current field:
no field change reported. -/
theorem diffFields_eq_nil {p c : DescriptorProto}
    (h : ∀ f ∈ p.field, ∃ f',
      lookupLast (fun x => x.number) c.field f.number = some f' ∧
      f'.name = f.name ∧ f'.type = f.type ∧ f'.typeName = f.typeName ∧
      f'.label = f.label) :
    diffFields p c = [] := by
  rw [diffFields, List.flatMap_eq_nil_iff]
  intro f hf
  obtain ⟨f', hl, h1, h2, h3, h4⟩ := h f hf
  rw [fieldDiff, hl]
  exact fieldChecks_eq_nil h1 h2 h3 h4

/-- Every previous method matched, by name, to an identical current method:
no service change reported. -/
theorem diffService_eq_nil {p c : ServiceDescriptorProto}
    (h : ∀ m ∈ p.method, ∃ m',
      lookupLast (fun x => x.name) c.method m.name = some m' ∧
      m'.inputType = m.inputType ∧ m'.outputType = m.outputType ∧
      m'.clientStreaming = m.clientStreaming ∧
      m'.serverStreaming = m.serverStreaming) :
    diffService p c = [] := by
  rw [diffService, List.flatMap_eq_nil_iff]
  intro m hm
  obtain ⟨m', hl, h1, h2, h3, h4⟩ := h m hm
  rw [methodDiff, hl]
  exact methodChecks_eq_nil h1 h2 h3 h4

/-- Every previous value's number and name both still present: no enum
change reported. -/
theorem diffEnum_eq_nil {p c : EnumDescriptorProto}
    (h : ∀ v ∈ p.value, (∃ w ∈ c.value, w.number = v.number) ∧
      (∃ w ∈ c.value, w.name = v.name)) :
    diffEnum p c = [] := by
  rw [diffEnum, List.append_eq_nil]
  constructor <;> rw [List.flatMap_eq_nil_iff] <;> intro v hv
  · obtain ⟨⟨w, hw, hn⟩, _⟩ := h v hv
    obtain ⟨y, hy⟩ := Option.isSome_iff_exists.1
      (lookupLast_isSome_iff.2 ⟨w, hw, hn⟩)
    rw [enumValueCheck, hy]
  · obtain ⟨_, ⟨w, hw, hn⟩⟩ := h v hv
    obtain ⟨y, hy⟩ := Option.isSome_iff_exists.1
      (lookupLast_isSome_iff.2 ⟨w, hw, hn⟩)
    rw [enumNameCheck, hy]

end Lemmas

/-! Shared equations for the pair `diffFiles` returns, and the helper results
the self-diff, additive-extension and permutation theorems factor through. -/

/-- The report component of `diffFiles` is the accumulated change list. -/
theorem diffFiles_fst (previous current : List FileDescriptorProto) :
    (diffFiles previous current).1.Changes = diffFilesChanges previous current := rfl

/-- The error component of `diffFiles`, as the engine derives it. -/
theorem diffFiles_snd (previous current : List FileDescriptorProto) :
    (diffFiles previous current).2 =
      if (diffFilesChanges previous current).length > 0 then
        some (errorMessage (diffFilesChanges previous current))
      else none := rfl

/-- `wrap32` is the identity on values already in `int32` range. -/
theorem wrap32_eq_self {x : Int} (h1 : -(2 ^ 31) ≤ x) (h2 : x < 2 ^ 31) :
    wrap32 x = x := by
  unfold wrap32
  omega

/-- `firstKeys` of a permuted list is a permutation of `firstKeys`. -/
theorem firstKeys_perm {β : Type} [DecidableEq β] {l₁ l₂ : List β}
    (hp : l₁.Perm l₂) : (firstKeys l₁).Perm (firstKeys l₂) :=
  (List.perm_ext_iff_of_nodup (firstKeys_nodup _) (firstKeys_nodup _)).2 fun a => by
    rw [mem_firstKeys, mem_firstKeys, hp.mem_iff]

/-- When the current package has duplicate-free top-level names per kind,
permuting its files does not change the package diff at all: the engine only
sees the current side through its last-wins by-name views. -/
theorem diffPackage_congr_current (prevFiles : List FileDescriptorProto)
    {c c' : List FileDescriptorProto} (hp : c'.Perm c)
    (h1 : ((enumsOf c).map (fun e => e.name)).Nodup)
    (h2 : ((servicesOf c).map (fun s => s.name)).Nodup)
    (h3 : ((messagesOf c).map (fun m => m.name)).Nodup) :
    diffPackage prevFiles c' = diffPackage prevFiles c := by
  have hpe : (enumsOf c').Perm (enumsOf c) := hp.flatMap_right _
  have hps : (servicesOf c').Perm (servicesOf c) := hp.flatMap_right _
  have hpm : (messagesOf c').Perm (messagesOf c) := hp.flatMap_right _
  unfold diffPackage
  refine congrArg₂ (fun a b : List Change => a ++ b)
    (congrArg₂ (fun a b : List Change => a ++ b) ?_ ?_) ?_
  · exact List.flatMap_congr fun e _ => by rw [lookupLast_perm_of_nodup hpe h1]
  · exact List.flatMap_congr fun s _ => by rw [lookupLast_perm_of_nodup hps h2]
  · exact List.flatMap_congr fun m _ => by rw [lookupLast_perm_of_nodup hpm h3]

/-- Permuting the previous package files permutes the package diff. -/
theorem diffPackage_perm_previous {p p' : List FileDescriptorProto}
    (hp : p'.Perm p) (c : List FileDescriptorProto) :
    (diffPackage p' c).Perm (diffPackage p c) := by
  unfold diffPackage
  exact ((((hp.flatMap_right _).flatMap_right _).append
    ((hp.flatMap_right _).flatMap_right _)).append
    ((hp.flatMap_right _).flatMap_right _))

/-- Diffing a well-formed package against itself reports nothing. -/
theorem diffPackage_self (files : List FileDescriptorProto)
    (h : WellFormedPackage files) : diffPackage files files = [] := by
  obtain ⟨he, hs, hm, hmf, hsm⟩ := h
  rw [diffPackage]
  rw [List.append_eq_nil, List.append_eq_nil]
  refine ⟨⟨?_, ?_⟩, ?_⟩ <;> rw [List.flatMap_eq_nil_iff]
  · intro e hme
    have hl : lookupLast (fun x => x.name) (enumsOf files) e.name = some e :=
      lookupLast_self_of_nodup he hme
    rw [hl]
    exact diffEnum_eq_nil fun v hv => ⟨⟨v, hv, rfl⟩, ⟨v, hv, rfl⟩⟩
  · intro s hms
    have hl : lookupLast (fun x => x.name) (servicesOf files) s.name = some s :=
      lookupLast_self_of_nodup hs hms
    rw [hl]
    exact diffService_eq_nil fun m hm' =>
      ⟨m, lookupLast_self_of_nodup (hsm s hms) hm', rfl, rfl, rfl, rfl⟩
  · intro m hmm
    have hl : lookupLast (fun x => x.name) (messagesOf files) m.name = some m :=
      lookupLast_self_of_nodup hm hmm
    rw [hl]
    unfold diffMsg
    rw [List.append_eq_nil, List.append_eq_nil]
    refine ⟨⟨?_, ?_⟩, ?_⟩
    · exact diffFields_eq_nil fun f hf =>
        ⟨f, lookupLast_self_of_nodup (hmf m hmm) hf, rfl, rfl, rfl, rfl⟩
    · exact diffReservedNames_eq_nil fun n hn => hn
    · exact diffReservedNumbers_eq_nil fun r hr => ⟨r, hr, le_refl _, le_refl _⟩

/-- Diffing a package against a package whose views extend it reports
nothing. -/
theorem diffPackage_extends {p c : List FileDescriptorProto}
    (h : ExtendsFiles p c) : diffPackage p c = [] := by
  obtain ⟨he, hs, hm⟩ := h
  rw [diffPackage]
  rw [List.append_eq_nil, List.append_eq_nil]
  refine ⟨⟨?_, ?_⟩, ?_⟩ <;> rw [List.flatMap_eq_nil_iff]
  · intro e hme
    obtain ⟨e', hl, hx⟩ := he e hme
    rw [hl]
    exact diffEnum_eq_nil fun v hv => by
      obtain ⟨w, hw, hn, hnum⟩ := hx v hv
      exact ⟨⟨w, hw, hnum⟩, ⟨w, hw, hn⟩⟩
  · intro s hms
    obtain ⟨s', hl, hx⟩ := hs s hms
    rw [hl]
    exact diffService_eq_nil fun m hm' => by
      obtain ⟨m', hml, h1, h2, h3, h4⟩ := hx m hm'
      exact ⟨m', hml, h1, h2, h3, h4⟩
  · intro m hmm
    obtain ⟨m', hl, hf, hn, hr⟩ := hm m hmm
    rw [hl]
    unfold diffMsg
    rw [List.append_eq_nil, List.append_eq_nil]
    refine ⟨⟨?_, ?_⟩, ?_⟩
    · exact diffFields_eq_nil fun f hfm => by
        obtain ⟨f', hfl, h1, h2, h3, h4⟩ := hf f hfm
        exact ⟨f', hfl, h1, h2, h3, h4⟩
    · exact diffReservedNames_eq_nil hn
    · exact diffReservedNumbers_eq_nil fun r hrm =>
        ⟨r, hr r hrm, le_refl _, le_refl _⟩

/-! The claim theorems. -/

/-- C1: the engine evaluated at the failing input.  The previous message has
field `f` with number 5; the current message removes it, reserves the name
`f` and the range `{Start: 3, End: 5}`.  Protobuf reserved ranges are
half-open (`End` exclusive) — the repository itself renders this range as
covering numbers 3 to 4 (third conjunct) — so the removal of number 5 is NOT
covered and the claim requires a `removed field` problem; yet `hasReserved`
tests `number <= End`, treats 5 as reserved, and the engine reports nothing
(first conjunct). -/
theorem C1_reserved_end_inclusive_eval :
    (diffFiles Ex.c1Prev Ex.c1Curr).1.Changes = [] ∧
    hasReserved Ex.c1CurrMsg ⟨"f", 5, some .TYPE_STRING, none, some .LABEL_OPTIONAL⟩
      = true ∧
    renderChange (.ProblemUnreservedFieldNumber "M" 3 5) =
      "un-reserved field number(s) in range 3 to 4 from message \x27M\x27" := by
  refine ⟨by decide, by decide, by decide⟩

/-- C2: a previous reserved range yields an `un-reserved field number(s)`
change exactly when no single current reserved range contains it
(`prev.Start >= curr.Start` and `prev.End <= curr.End`); coverage split
across several adjacent current ranges still yields the change, since the
right-hand side quantifies over single ranges only. -/
theorem C2_reserved_range_flagged_iff (previous current : DescriptorProto)
    (r : ReservedRange) (hr : r ∈ previous.reservedRange) :
    (Change.ProblemUnreservedFieldNumber current.name r.start r.end_ ∈
        diffReservedNumbers previous current) ↔
      ¬ ∃ c ∈ current.reservedRange, r.start ≥ c.start ∧ r.end_ ≤ c.end_ := by
  constructor
  · intro hmem hex
    rw [diffReservedNumbers, List.mem_flatMap] at hmem
    obtain ⟨r', hr', hin⟩ := hmem
    rw [reservedRangeCheck] at hin
    by_cases hfound : current.reservedRange.any fun c =>
        r'.start ≥ c.start && r'.end_ ≤ c.end_
    · rw [if_pos hfound] at hin
      cases hin
    · rw [if_neg hfound] at hin
      have heq := List.mem_singleton.1 hin
      rw [Change.ProblemUnreservedFieldNumber.injEq] at heq
      obtain ⟨-, hs, he⟩ := heq
      apply hfound
      obtain ⟨c, hc, h1, h2⟩ := hex
      refine List.any_eq_true.2 ⟨c, hc, ?_⟩
      simp only [ge_iff_le, Bool.and_eq_true, decide_eq_true_eq]
      omega
  · intro hnone
    rw [diffReservedNumbers, List.mem_flatMap]
    refine ⟨r, hr, ?_⟩
    rw [reservedRangeCheck, if_neg, List.mem_singleton]
    intro hany
    obtain ⟨c, hc, hcond⟩ := List.any_eq_true.1 hany
    simp only [Bool.and_eq_true, decide_eq_true_eq] at hcond
    exact hnone ⟨c, hc, hcond.1, hcond.2⟩

/-- C2 witness: the range `[1, 5)` is still fully covered, but only by the
two adjacent current ranges `[1, 3)` and `[3, 5)`, so it is flagged. -/
theorem C2_witness :
    Change.ProblemUnreservedFieldNumber "M" 1 5 ∈
      diffReservedNumbers Ex.c2PrevMsg Ex.c2CurrMsg :=
  (C2_reserved_range_flagged_iff Ex.c2PrevMsg Ex.c2CurrMsg ⟨1, 5⟩
    (by decide)).2 (by decide)

/-- C3: per previous enum value, against the actual by-number and by-name
indices of `diffEnum` (first conjunct): a pure renumber yields exactly one
`changed value` change carrying the old and new numbers and nothing from the
name pass; a pure rename yields exactly one `changed name` change carrying
the old and new names and nothing from the number pass; a value gone from
both indices yields exactly one `removed value` change and no
rename/renumber change; a value present in both indices yields nothing. -/
theorem C3_enum_value_cases (previous current : EnumDescriptorProto)
    (v : EnumValueDescriptorProto) :
    (diffEnum previous current =
      previous.value.flatMap
          (enumValueCheck previous.name
            (lookupLast (fun x => x.number) current.value)
            (lookupLast (fun x => x.name) current.value)) ++
        previous.value.flatMap
          (enumNameCheck previous.name
            (lookupLast (fun x => x.number) current.value)
            (lookupLast (fun x => x.name) current.value))) ∧
    (∀ w, lookupLast (fun x => x.number) current.value v.number = none →
      lookupLast (fun x => x.name) current.value v.name = some w →
      enumValueCheck previous.name
          (lookupLast (fun x => x.number) current.value)
          (lookupLast (fun x => x.name) current.value) v =
        [.ProblemChangeEnumValue previous.name v.name v.number w.number] ∧
      enumNameCheck previous.name
          (lookupLast (fun x => x.number) current.value)
          (lookupLast (fun x => x.name) current.value) v = []) ∧
    (∀ w, lookupLast (fun x => x.name) current.value v.name = none →
      lookupLast (fun x => x.number) current.value v.number = some w →
      enumValueCheck previous.name
          (lookupLast (fun x => x.number) current.value)
          (lookupLast (fun x => x.name) current.value) v = [] ∧
      enumNameCheck previous.name
          (lookupLast (fun x => x.number) current.value)
          (lookupLast (fun x => x.name) current.value) v =
        [.ProblemChangeEnumName previous.name v.number v.name w.name]) ∧
    (lookupLast (fun x => x.number) current.value v.number = none →
      lookupLast (fun x => x.name) current.value v.name = none →
      enumValueCheck previous.name
          (lookupLast (fun x => x.number) current.value)
          (lookupLast (fun x => x.name) current.value) v =
        [.ProblemRemovedEnumValue previous.name v.name] ∧
      enumNameCheck previous.name
          (lookupLast (fun x => x.number) current.value)
          (lookupLast (fun x => x.name) current.value) v = []) ∧
    (∀ w1 w2, lookupLast (fun x => x.number) current.value v.number = some w1 →
      lookupLast (fun x => x.name) current.value v.name = some w2 →
      enumValueCheck previous.name
          (lookupLast (fun x => x.number) current.value)
          (lookupLast (fun x => x.name) current.value) v = [] ∧
      enumNameCheck previous.name
          (lookupLast (fun x => x.number) current.value)
          (lookupLast (fun x => x.name) current.value) v = []) := by
  refine ⟨rfl, ?_, ?_, ?_, ?_⟩
  · intro w h1 h2
    exact ⟨by rw [enumValueCheck, h1, h2], by rw [enumNameCheck, h2]⟩
  · intro w h1 h2
    exact ⟨by rw [enumValueCheck, h2], by rw [enumNameCheck, h1, h2]⟩
  · intro h1 h2
    exact ⟨by rw [enumValueCheck, h1, h2], by rw [enumNameCheck, h2, h1]⟩
  · intro w1 w2 h1 h2
    exact ⟨by rw [enumValueCheck, h1], by rw [enumNameCheck, h2]⟩

/-- C3 witness: the four cases at concrete one-value enums — renumbered,
renamed, changed in both axes (reported only as removed), unchanged. -/
theorem C3_witness :
    (enumValueCheck "E" (lookupLast (fun x => x.number) Ex.c3Renumbered.value)
        (lookupLast (fun x => x.name) Ex.c3Renumbered.value) ⟨"A", 1⟩ =
      [.ProblemChangeEnumValue "E" "A" 1 2] ∧
      enumNameCheck "E" (lookupLast (fun x => x.number) Ex.c3Renumbered.value)
        (lookupLast (fun x => x.name) Ex.c3Renumbered.value) ⟨"A", 1⟩ = []) ∧
    (enumValueCheck "E" (lookupLast (fun x => x.number) Ex.c3Renamed.value)
        (lookupLast (fun x => x.name) Ex.c3Renamed.value) ⟨"A", 1⟩ = [] ∧
      enumNameCheck "E" (lookupLast (fun x => x.number) Ex.c3Renamed.value)
        (lookupLast (fun x => x.name) Ex.c3Renamed.value) ⟨"A", 1⟩ =
      [.ProblemChangeEnumName "E" 1 "A" "B"]) ∧
    (enumValueCheck "E" (lookupLast (fun x => x.number) Ex.c3Both.value)
        (lookupLast (fun x => x.name) Ex.c3Both.value) ⟨"A", 1⟩ =
      [.ProblemRemovedEnumValue "E" "A"] ∧
      enumNameCheck "E" (lookupLast (fun x => x.number) Ex.c3Both.value)
        (lookupLast (fun x => x.name) Ex.c3Both.value) ⟨"A", 1⟩ = []) ∧
    (enumValueCheck "E" (lookupLast (fun x => x.number) Ex.c3Prev.value)
        (lookupLast (fun x => x.name) Ex.c3Prev.value) ⟨"A", 1⟩ = [] ∧
      enumNameCheck "E" (lookupLast (fun x => x.number) Ex.c3Prev.value)
        (lookupLast (fun x => x.name) Ex.c3Prev.value) ⟨"A", 1⟩ = []) :=
  ⟨(C3_enum_value_cases Ex.c3Prev Ex.c3Renumbered ⟨"A", 1⟩).2.1 ⟨"A", 2⟩
      (by decide) (by decide),
   (C3_enum_value_cases Ex.c3Prev Ex.c3Renamed ⟨"A", 1⟩).2.2.1 ⟨"B", 1⟩
      (by decide) (by decide),
   (C3_enum_value_cases Ex.c3Prev Ex.c3Both ⟨"A", 1⟩).2.2.2.1
      (by decide) (by decide),
   (C3_enum_value_cases Ex.c3Prev Ex.c3Prev ⟨"A", 1⟩).2.2.2.2 ⟨"A", 1⟩ ⟨"A", 1⟩
      (by decide) (by decide)⟩

/-- C4 counterexample: a method whose client-streaming flag is PRESENT on
both sides (previous `false`, current `true`).  The claim says a streaming
change is emitted exactly when one flag is set and the other is not, so it
predicts no change here; the engine compares the optional values and emits
one — rendered, via the presence booleans, as `true -> true`. -/
theorem C4_counterexample :
    diffService Ex.c4Prev Ex.c4Curr =
      [.ProblemChangedServiceStreaming "Foo" "Invoke" "client"
        (some false) (some true)] ∧
    (some false : Option Bool).isSome = true ∧
    (some true : Option Bool).isSome = true ∧
    renderChange (.ProblemChangedServiceStreaming "Foo" "Invoke" "client"
        (some false) (some true)) =
      "changed client streaming for method \x27Invoke\x27 on service \x27Foo\x27: true -> true" := by
  exact ⟨by decide, rfl, rfl, by decide⟩

/-- C4 amended: a streaming change is emitted exactly when the two optional
flags differ as `Option Bool` values (in presence or in value), and the
rendered old/new values are the presence booleans of the two flags. -/
theorem C4_streaming_change_iff (currentName : String)
    (prev next : MethodDescriptorProto) :
    ((Change.ProblemChangedServiceStreaming currentName prev.name "client"
        prev.clientStreaming next.clientStreaming ∈
          methodChecks currentName prev next) ↔
      prev.clientStreaming ≠ next.clientStreaming) ∧
    ((Change.ProblemChangedServiceStreaming currentName prev.name "server"
        prev.serverStreaming next.serverStreaming ∈
          methodChecks currentName prev next) ↔
      prev.serverStreaming ≠ next.serverStreaming) ∧
    (∀ s n side o nw, renderChange (.ProblemChangedServiceStreaming s n side o nw) =
      "changed " ++ side ++ " streaming for method \x27" ++ n ++
        "\x27 on service \x27" ++ s ++ "\x27: " ++ boolStr o.isSome ++ " -> " ++
        boolStr nw.isSome) := by
  refine ⟨?_, ?_, fun s n side o nw => rfl⟩ <;>
  · unfold methodChecks
    by_cases h1 : next.inputType ≠ prev.inputType <;>
      by_cases h2 : next.outputType ≠ prev.outputType <;>
        by_cases h3 : prev.clientStreaming ≠ next.clientStreaming <;>
          by_cases h4 : prev.serverStreaming ≠ next.serverStreaming <;>
            simp [h1, h2, h3, h4]

/-- C4 witness: the amended equivalence instantiated at the counterexample
method pair. -/
theorem C4_witness :
    Change.ProblemChangedServiceStreaming "Foo" "Invoke" "client"
        (some false) (some true) ∈
      methodChecks "Foo" ⟨"Invoke", ".a.A", ".a.B", some false, some true⟩
        ⟨"Invoke", ".a.A", ".a.B", some true, some true⟩ :=
  (C4_streaming_change_iff "Foo" ⟨"Invoke", ".a.A", ".a.B", some false, some true⟩
      ⟨"Invoke", ".a.A", ".a.B", some true, some true⟩).1.mpr (by decide)

/-- C5 counterexample: a matched field differing in all four compared
aspects at once — name, type kind, reference string (both sides carry one),
label — emits exactly THREE changes, with no reference-type change: the
reference check is inside the `else` of the type-kind check, so all four can
never fire for one field in one pass. -/
theorem C5_counterexample :
    fieldChecks Ex.c5Msg Ex.c5Field Ex.c5Next =
      [.ProblemChangedFieldName "M" 1 "a" "b",
       .ProblemChangedFieldType "M" "a" (some .TYPE_MESSAGE) (some .TYPE_ENUM),
       .ProblemChangedFieldLabel "M" "a" (some .LABEL_OPTIONAL)
         (some .LABEL_REPEATED)] ∧
    Ex.c5Field.typeName = some ".x.A" ∧ Ex.c5Next.typeName = some ".x.B" ∧
    diffFields ⟨"M", [Ex.c5Field], [], []⟩ Ex.c5Msg =
      [.ProblemChangedFieldName "M" 1 "a" "b",
       .ProblemChangedFieldType "M" "a" (some .TYPE_MESSAGE) (some .TYPE_ENUM),
       .ProblemChangedFieldLabel "M" "a" (some .LABEL_OPTIONAL)
         (some .LABEL_REPEATED)] := by
  exact ⟨by decide, rfl, rfl, by decide⟩

/-- C5 amended: the name, type-kind and label checks are independent and can
all fire for one field in one pass (first run), as can name, reference and
label (second run); but the type-kind and reference checks are mutually
exclusive — at most three of the four changes can be emitted for one field. -/
theorem C5_checks_amended :
    (fieldChecks Ex.c5Msg Ex.c5Field Ex.c5Next =
      [.ProblemChangedFieldName "M" 1 "a" "b",
       .ProblemChangedFieldType "M" "a" (some .TYPE_MESSAGE) (some .TYPE_ENUM),
       .ProblemChangedFieldLabel "M" "a" (some .LABEL_OPTIONAL)
         (some .LABEL_REPEATED)]) ∧
    (fieldChecks Ex.c5RefMsg Ex.c5RefField Ex.c5RefNext =
      [.ProblemChangedFieldName "M" 1 "a" "b",
       .ProblemChangedFieldComplexType "M" "a" ".x.A" ".x.B",
       .ProblemChangedFieldLabel "M" "a" (some .LABEL_OPTIONAL)
         (some .LABEL_REPEATED)]) ∧
    (∀ (current : DescriptorProto) (f next : FieldDescriptorProto),
      (fieldChecks current f next).countP isChangedFieldType = 0 ∨
      (fieldChecks current f next).countP isChangedFieldComplexType = 0) := by
  refine ⟨by decide, by decide, fun current f next => ?_⟩
  unfold fieldChecks
  by_cases ht : f.type ≠ next.type
  · right
    rw [if_pos ht]
    simp only [List.countP_append]
    by_cases hn : f.name ≠ next.name <;>
      by_cases hl : f.label ≠ next.label <;>
        simp [hn, hl, isChangedFieldComplexType, List.countP_cons]
  · left
    rw [if_neg ht]
    simp only [List.countP_append]
    by_cases hn : f.name ≠ next.name <;>
      by_cases hl : f.label ≠ next.label <;>
      · cases hf : f.typeName <;> cases hnn : next.typeName <;>
          simp [hn, hl, hf, hnn, isChangedFieldType, List.countP_cons]

/-- C6: the error component of `diffFiles` is non-nil exactly when the
returned report is non-empty, and its message is
`found N problems: <rendered list>` with `N` the number of changes and the
list rendered as Go formats a `[]Change`. -/
theorem C6_error_signal (previous current : List FileDescriptorProto) :
    ((diffFiles previous current).2 ≠ none ↔
      (diffFiles previous current).1.Changes ≠ []) ∧
    (∀ msg, (diffFiles previous current).2 = some msg →
      msg = "found " ++ toString (diffFiles previous current).1.Changes.length ++
        " problems: " ++ renderChangeList (diffFiles previous current).1.Changes) := by
  rw [diffFiles_snd, diffFiles_fst]
  by_cases h : (diffFilesChanges previous current).length > 0
  · rw [if_pos h]
    constructor
    · have : diffFilesChanges previous current ≠ [] := by
        intro hnil
        rw [hnil] at h
        simp at h
      simp [this]
    · intro msg hmsg
      cases hmsg
      rfl
  · rw [if_neg h]
    have hnil : diffFilesChanges previous current = [] := by
      cases hc : diffFilesChanges previous current with
      | nil => rfl
      | cons a l => rw [hc] at h; simp at h
    constructor
    · simp [hnil]
    · intro msg hmsg
      cases hmsg

/-- C7 counterexample: two files of the same package each declare a message
`M` (one field `a` of type string, the other of type bool).  In the derived
view the later file shadows the earlier one, so diffing the snapshot against
an identical copy of itself reports a type change: self-diff is not always
empty. -/
theorem C7_counterexample :
    (diffFiles [Ex.dupA, Ex.dupB] [Ex.dupA, Ex.dupB]).1.Changes =
      [.ProblemChangedFieldType "M" "a" (some .TYPE_STRING) (some .TYPE_BOOL)] := by
  decide

/-- C7 amended: diffing a snapshot against an identical copy of itself
yields an empty report and a nil error, provided the snapshot satisfies the
uniqueness invariant the spec assumes (unique top-level names per kind per
package, unique field numbers per message, unique method names per
service). -/
theorem C7_diff_self_empty (files : List FileDescriptorProto)
    (h : WellFormed files) :
    (diffFiles files files).1.Changes = [] ∧ (diffFiles files files).2 = none := by
  have hch : diffFilesChanges files files = [] := by
    rw [diffFilesChanges, List.flatMap_eq_nil_iff]
    intro pb hpb
    have hwf := h pb hpb
    rw [groupByPackage_eq] at hpb
    obtain ⟨p, hp, hpeq⟩ := List.mem_map.1 hpb
    rw [← hpeq]
    rw [lookup_groupByPackage, if_pos (mem_firstKeys.1 hp)]
    have : pb.2 = files.filter fun g => g.package = p := by rw [← hpeq]
    rw [← this]
    exact diffPackage_self _ hwf
  refine ⟨by rw [diffFiles_fst, hch], by rw [diffFiles_snd, hch]; rfl⟩

/-- C7 witness: self-diff of a concrete well-formed snapshot with a message,
reserved declarations, an enum and a service is empty. -/
theorem C7_witness : (diffFiles Ex.rich Ex.rich).1.Changes = [] :=
  (C7_diff_self_empty Ex.rich (by decide)).1

/-- C8: when the current snapshot extends the previous one only additively —
every previous package still present, its derived views mapping every
previous declaration to an identical one, with new packages, messages,
enums, services, fields, enum values and methods freely added — the diff
from previous to current reports nothing. -/
theorem C8_additive_diff_empty (previous current : List FileDescriptorProto)
    (h : AdditiveExtension previous current) :
    (diffFiles previous current).1.Changes = [] := by
  rw [diffFiles_fst, diffFilesChanges, List.flatMap_eq_nil_iff]
  intro pb hpb
  obtain ⟨cb, hcb, hext⟩ := h pb hpb
  rw [hcb]
  exact diffPackage_extends hext

/-- C8 witness: a concrete additive extension — new field, new enum value,
new method, new message and a whole new package — diffs to an empty
report. -/
theorem C8_witness : (diffFiles Ex.rich Ex.richMore).1.Changes = [] :=
  C8_additive_diff_empty Ex.rich Ex.richMore (by decide)

/-- C9 counterexample: the report is NOT invariant under permuting files.
First pair: with two same-package files both declaring message `M`,
swapping them in the current snapshot changes which declaration the
last-wins view keeps, and the reports differ in content.  Second pair:
swapping two previous files of different packages reorders the report. -/
theorem C9_counterexample :
    (([Ex.dupA, Ex.dupB] : List FileDescriptorProto).Perm [Ex.dupB, Ex.dupA]) ∧
    (diffFiles [Ex.dupA] [Ex.dupA, Ex.dupB]).1.Changes ≠
      (diffFiles [Ex.dupA] [Ex.dupB, Ex.dupA]).1.Changes ∧
    (([Ex.pkgA, Ex.pkgB] : List FileDescriptorProto).Perm [Ex.pkgB, Ex.pkgA]) ∧
    (diffFiles [Ex.pkgA, Ex.pkgB] []).1.Changes ≠
      (diffFiles [Ex.pkgB, Ex.pkgA] []).1.Changes := by
  refine ⟨by decide, by decide, by decide, by decide⟩

/-- C9 amended: when the current snapshot has duplicate-free top-level names
per kind within each package, permuting the files of either snapshot (in any
way: within a package or across packages) yields a report with the same
changes up to order — a permutation of the original report. -/
theorem C9_perm_report (previous previous' current current' : List FileDescriptorProto)
    (hp : previous'.Perm previous) (hc : current'.Perm current)
    (hu : UniquePackageNames current) :
    ((diffFiles previous' current').1.Changes).Perm
      ((diffFiles previous current).1.Changes) := by
  rw [diffFiles_fst, diffFiles_fst, diffFilesChanges, diffFilesChanges]
  rw [groupByPackage_eq previous', groupByPackage_eq previous]
  simp only [List.flatMap_map]
  have hkeys : (firstKeys (previous'.map fun f => f.package)).Perm
      (firstKeys (previous.map fun f => f.package)) := firstKeys_perm (hp.map _)
  refine List.Perm.trans (List.Perm.flatMap_left _ ?_) (hkeys.flatMap_right _)
  intro p hpmem
  dsimp only
  rw [lookup_groupByPackage current' p, lookup_groupByPackage current p]
  by_cases hmem : p ∈ current.map fun f => f.package
  · rw [if_pos hmem, if_pos ((hc.map _).mem_iff.2 hmem)]
    have hbucket : (p, current.filter fun g => g.package = p) ∈
        groupByPackage current := by
      rw [groupByPackage_eq]
      exact List.mem_map.2 ⟨p, mem_firstKeys.2 hmem, rfl⟩
    obtain ⟨h1, h2, h3⟩ := hu _ hbucket
    dsimp only at h1 h2 h3
    have hcf : (List.filter (fun g => g.package = p) current').Perm
        (List.filter (fun g => g.package = p) current) := hc.filter _
    dsimp only
    rw [diffPackage_congr_current _ hcf h1 h2 h3]
    exact diffPackage_perm_previous (hp.filter _) _
  · rw [if_neg (fun hx => hmem ((hc.map _).mem_iff.1 hx)), if_neg hmem]

/-- C9 witness: the amended statement at a concrete pair — two previous
files of different packages swapped against an unchanged current snapshot. -/
theorem C9_witness :
    ((diffFiles [Ex.pkgB, Ex.pkgA] [Ex.pkgA]).1.Changes).Perm
      ((diffFiles [Ex.pkgA, Ex.pkgB] [Ex.pkgA]).1.Changes) :=
  C9_perm_report [Ex.pkgA, Ex.pkgB] [Ex.pkgB, Ex.pkgA] [Ex.pkgA] [Ex.pkgA]
    (by decide) (by decide) (by decide)

/-- C10: within `int32` range and barring subtraction overflow, the rendered
text of a flagged reserved range is plural — `un-reserved field number(s) in
range <Start> to <End-1> ...` — exactly when `End - Start > 1`, and singular
— `un-reserved field number <Start> ...` — when `End - Start <= 1`. -/
theorem C10_unreserved_render (m : String) (s e : Int)
    (hs1 : -(2 ^ 31) ≤ s) (hs2 : s < 2 ^ 31)
    (he1 : -(2 ^ 31) ≤ e) (he2 : e < 2 ^ 31)
    (hd1 : -(2 ^ 31) ≤ e - s) (hd2 : e - s < 2 ^ 31) :
    (1 < e - s →
      renderChange (.ProblemUnreservedFieldNumber m s e) =
        "un-reserved field number(s) in range " ++ toString s ++ " to " ++
          toString (e - 1) ++ " from message \x27" ++ m ++ "\x27") ∧
    (e - s ≤ 1 →
      renderChange (.ProblemUnreservedFieldNumber m s e) =
        "un-reserved field number " ++ toString s ++ " from message \x27" ++ m ++
          "\x27") := by
  have hd : wrap32 (e - s) = e - s := wrap32_eq_self hd1 hd2
  constructor
  · intro hgt
    have he1' : wrap32 (e - 1) = e - 1 := wrap32_eq_self (by omega) (by omega)
    show (if wrap32 (e - s) > 1 then _ else _) = _
    rw [hd, if_pos hgt, he1']
  · intro hle
    show (if wrap32 (e - s) > 1 then _ else _) = _
    rw [hd, if_neg (by omega)]

/-- C10 witness: the test scenario, range `[1, 4)` on `HelloRequest`. -/
theorem C10_witness :
    renderChange (.ProblemUnreservedFieldNumber "HelloRequest" 1 4) =
      "un-reserved field number(s) in range 1 to 3 from message \x27HelloRequest\x27" :=
  (C10_unreserved_render "HelloRequest" 1 4 (by decide) (by decide) (by decide)
    (by decide) (by decide) (by decide)).1 (by decide)

end PB
